import Mathlib

/-!
Verification of the core logic of the Document OCR Manager repository
(`doc_ocr_manager`): filename sanitisation (`core/storage.py`), text
normalisation and document classification (`core/classifier.py`), OCR
aggregation (`core/ocr_engine.py`), the SQLite-backed document store
(`core/db.py`) and the ingestion pipeline (`main.py`, `page_upload`).

Python strings are modelled as `String`/`List Char`; `None`-able values as
`Option`; the SQLite tables as lists of rows.  Python's `str.strip`, `\s`
and `str.lower` are modelled on their ASCII behaviour (all characters the
repository's keyword lists and separators use are either ASCII or already
lower-case, pre-composed code points that `lower` leaves unchanged).
-/

namespace DocOcr

/-- Characters treated as whitespace by Python's `str.strip()` and the
regex class `\s` (ASCII fragment). -/
def isPySpace (c : Char) : Bool :=
  c == ' ' || c == '\t' || c == '\n' || c == '\r' || c == '\x0b' || c == '\x0c'

/-- Model of Python `str.strip()`: remove leading and trailing whitespace. -/
def pyStrip (l : List Char) : List Char :=
  ((l.dropWhile isPySpace).reverse.dropWhile isPySpace).reverse

/-- String-level wrapper of `pyStrip`. -/
def pyStripS (s : String) : String :=
  String.mk (pyStrip s.data)

/-- Model of Python `str.replace(old, new)` for one-character arguments. -/
def pyReplaceChar (old new : Char) (l : List Char) : List Char :=
  l.map (fun c => if c = old then new else c)

/-- Characters of the regex class `[a-zA-Z0-9._-]` used by `safe_filename`
in `core/storage.py`. -/
def isAllowedChar (c : Char) : Bool :=
  ('a' ≤ c && c ≤ 'z') || ('A' ≤ c && c ≤ 'Z') || ('0' ≤ c && c ≤ '9') ||
    c == '.' || c == '_' || c == '-'

/-- Model of `re.sub(r"[^a-zA-Z0-9._-]+", "_", name)`: every maximal run of
characters outside the allowed class is replaced by a single underscore.
The boolean argument records whether the previous character belonged to
such a run. -/
def squashAux : Bool → List Char → List Char
  | _, [] => []
  | inRun, c :: cs =>
    if isAllowedChar c then c :: squashAux false cs
    else if inRun then squashAux true cs
    else '_' :: squashAux true cs

/-- Model of `name[:180] if len(name) > 180 else name`. -/
def truncate180 (l : List Char) : List Char :=
  if l.length > 180 then l.take 180 else l

/-- List-level body of `safe_filename` from `core/storage.py`:
strip, replace `\` and `/` by `_`, collapse disallowed runs to `_`,
truncate to 180 characters. -/
def safeFilenameL (l : List Char) : List Char :=
  truncate180 (squashAux false (pyReplaceChar '/' '_' (pyReplaceChar '\\' '_' (pyStrip l))))

/-- Model of `safe_filename` from `core/storage.py`. -/
def safe_filename (name : String) : String :=
  String.mk (safeFilenameL name.data)

/-- Models POSIX resolution of joining one separator-free path component
under a directory given as a list of components: `.` stays in the
directory, `..` moves to its parent, anything else is a child entry. -/
def resolveUnder (base : List String) (name : String) : List String :=
  if name = "." then base
  else if name = ".." then base.dropLast
  else base ++ [name]

/-! Helper lemmas about the sanitiser. -/

theorem mem_squashAux_allowed {c : Char} :
    ∀ (b : Bool) (l : List Char), c ∈ squashAux b l → isAllowedChar c = true := by
  intro b l
  induction l generalizing b with
  | nil => intro h; cases h
  | cons a t ih =>
    intro h
    by_cases ha : isAllowedChar a = true
    · rw [squashAux, if_pos ha] at h
      rcases List.mem_cons.1 h with rfl | h
      · exact ha
      · exact ih false h
    · rw [squashAux, if_neg ha] at h
      cases b with
      | true => exact ih true (by simpa using h)
      | false =>
        simp only [Bool.false_eq_true, if_false] at h
        rcases List.mem_cons.1 h with rfl | h
        · decide
        · exact ih true h

theorem squashAux_of_allowed {l : List Char}
    (h : ∀ c ∈ l, isAllowedChar c = true) : ∀ b, squashAux b l = l := by
  induction l with
  | nil => intro b; rfl
  | cons a t ih =>
    intro b
    have ha : isAllowedChar a = true := h a (List.mem_cons_self a t)
    rw [squashAux, if_pos ha, ih (fun c hc => h c (List.mem_cons_of_mem a hc))]

theorem dropWhile_eq_of_all_neg {p : α → Bool} {l : List α}
    (h : ∀ c ∈ l, p c = false) : l.dropWhile p = l := by
  cases l with
  | nil => rfl
  | cons c cs =>
    rw [List.dropWhile_cons_of_neg (by simp [h c (List.mem_cons_self c cs)])]

theorem pyStrip_of_no_space {l : List Char}
    (h : ∀ c ∈ l, isPySpace c = false) : pyStrip l = l := by
  unfold pyStrip
  rw [dropWhile_eq_of_all_neg h,
    dropWhile_eq_of_all_neg (fun c hc => h c (List.mem_reverse.1 hc)),
    List.reverse_reverse]

theorem map_eq_self_of_fixed {f : α → α} {l : List α}
    (h : ∀ c ∈ l, f c = c) : l.map f = l := by
  induction l with
  | nil => rfl
  | cons a t ih => simp_all

theorem allowed_not_space {c : Char} (h : isAllowedChar c = true) :
    isPySpace c = false := by
  cases hs : isPySpace c
  · rfl
  · exfalso
    unfold isPySpace at hs
    simp only [Bool.or_eq_true, beq_iff_eq] at hs
    rcases hs with ((((rfl | rfl) | rfl) | rfl) | rfl) | rfl <;> exact absurd h (by decide)

theorem allowed_ne_slash {c : Char} (h : isAllowedChar c = true) : c ≠ '/' := by
  rintro rfl; exact absurd h (by decide)

theorem allowed_ne_backslash {c : Char} (h : isAllowedChar c = true) : c ≠ '\\' := by
  rintro rfl; exact absurd h (by decide)

theorem mem_truncate180 {c : Char} {l : List Char} (h : c ∈ truncate180 l) : c ∈ l := by
  unfold truncate180 at h
  split at h
  · exact List.take_subset _ _ h
  · exact h

theorem truncate180_length_le (l : List Char) : (truncate180 l).length ≤ 180 := by
  unfold truncate180
  split
  · rw [List.length_take]; omega
  · omega

theorem truncate180_of_le {l : List Char} (h : l.length ≤ 180) : truncate180 l = l := by
  unfold truncate180
  rw [if_neg (by omega)]

theorem mem_safeFilenameL_allowed {c : Char} {l : List Char}
    (h : c ∈ safeFilenameL l) : isAllowedChar c = true :=
  mem_squashAux_allowed false _ (mem_truncate180 h)

theorem safeFilenameL_length_le (l : List Char) : (safeFilenameL l).length ≤ 180 :=
  truncate180_length_le _

theorem safeFilenameL_idem (l : List Char) :
    safeFilenameL (safeFilenameL l) = safeFilenameL l := by
  have hall : ∀ c ∈ safeFilenameL l, isAllowedChar c = true :=
    fun c hc => mem_safeFilenameL_allowed hc
  have h1 : pyStrip (safeFilenameL l) = safeFilenameL l :=
    pyStrip_of_no_space (fun c hc => allowed_not_space (hall c hc))
  have h2 : pyReplaceChar '\\' '_' (safeFilenameL l) = safeFilenameL l :=
    map_eq_self_of_fixed (fun c hc => if_neg (allowed_ne_backslash (hall c hc)))
  have h3 : pyReplaceChar '/' '_' (safeFilenameL l) = safeFilenameL l :=
    map_eq_self_of_fixed (fun c hc => if_neg (allowed_ne_slash (hall c hc)))
  have h4 : squashAux false (safeFilenameL l) = safeFilenameL l :=
    squashAux_of_allowed hall false
  conv_lhs => rw [safeFilenameL]
  rw [h1, h2, h3, h4, truncate180_of_le (safeFilenameL_length_le l)]

/-- C1 (amended): `safe_filename` is idempotent and its output never
contains a path-separator character; the traversal-safety part of the
original claim fails on the input `".."` (see the counterexample). -/
theorem c1_safe_filename_idem_no_sep (name : String) :
    safe_filename (safe_filename name) = safe_filename name ∧
    ∀ c ∈ (safe_filename name).data, c ≠ '/' ∧ c ≠ '\\' := by
  constructor
  · show String.mk (safeFilenameL (safeFilenameL name.data)) = String.mk (safeFilenameL name.data)
    rw [safeFilenameL_idem]
  · intro c hc
    have h := mem_safeFilenameL_allowed (l := name.data) hc
    exact ⟨allowed_ne_slash h, allowed_ne_backslash h⟩

/-- Witness for C1: evaluates the amended theorem on the concrete input
`"a/b"`, whose sanitised form is `"a_b"`. -/
theorem c1_witness :
    safe_filename (safe_filename "a/b") = safe_filename "a/b" ∧
    ('a' ≠ '/' ∧ 'a' ≠ '\\') := by
  refine ⟨(c1_safe_filename_idem_no_sep "a/b").1,
    (c1_safe_filename_idem_no_sep "a/b").2 'a' ?_⟩
  decide

/-- Counterexample to C1 as stated: `safe_filename ".."` is `".."`
unchanged, and joining `".."` under the per-document upload directory
resolves to the parent directory, i.e. outside of it. -/
theorem c1_counterexample :
    safe_filename ".." = ".." ∧
    resolveUnder ["data", "uploads", "doc1"] (safe_filename "..") = ["data", "uploads"] ∧
    (["data", "uploads", "doc1"].isPrefixOf
      (resolveUnder ["data", "uploads", "doc1"] (safe_filename "..")) = false) := by
  refine ⟨by decide, by decide, by decide⟩

/-! Text normalisation, `normalize_text` from `core/classifier.py`:
lower-case, collapse whitespace runs to a single space, strip. -/

/-- Model of `re.sub(r"\s+", " ", s)`: every maximal whitespace run becomes
one space.  The boolean argument records whether the previous character was
part of a whitespace run. -/
def collapseAux : Bool → List Char → List Char
  | _, [] => []
  | inRun, c :: cs =>
    if isPySpace c then
      (if inRun then collapseAux true cs else ' ' :: collapseAux true cs)
    else c :: collapseAux false cs

/-- Whitespace-run collapsing, starting outside a run. -/
def collapseWS (l : List Char) : List Char := collapseAux false l

/-- List-level body of `normalize_text`: `(s or "").lower()`, then collapse
whitespace runs, then strip.  `Char.toLower` models Python `str.lower` on
its ASCII fragment (all non-ASCII characters in the repository's keyword
lists are already lower-case and are left unchanged by both). -/
def normalizeL (l : List Char) : List Char :=
  pyStrip (collapseWS (l.map Char.toLower))

/-- Model of `normalize_text` from `core/classifier.py`; the `Option`
input captures that Python callers may pass `None` (`s or ""`). -/
def normalize_text (s : Option String) : String :=
  String.mk (normalizeL (s.getD "").data)

/-! Helper lemmas about lowering, collapsing and stripping. -/

theorem toNat_toLower_of_upper {c : Char} (h1 : 65 ≤ c.toNat) (h2 : c.toNat ≤ 90) :
    (Char.toLower c).toNat = c.toNat + 32 := by
  rw [Char.toLower]
  simp only [ge_iff_le]
  rw [if_pos ⟨h1, h2⟩, Char.ofNat, dif_pos (Or.inl (by omega))]
  rfl

theorem toLower_of_not_upper {c : Char} (h : ¬(65 ≤ c.toNat ∧ c.toNat ≤ 90)) :
    Char.toLower c = c := by
  rw [Char.toLower]
  simp only [ge_iff_le]
  rw [if_neg h]

theorem toLower_idem (c : Char) : Char.toLower (Char.toLower c) = Char.toLower c := by
  by_cases h : 65 ≤ c.toNat ∧ c.toNat ≤ 90
  · have hn := toNat_toLower_of_upper h.1 h.2
    exact toLower_of_not_upper (by omega)
  · rw [toLower_of_not_upper h, toLower_of_not_upper h]

theorem mem_collapseAux {c : Char} :
    ∀ (b : Bool) (l : List Char), c ∈ collapseAux b l → c = ' ' ∨ c ∈ l := by
  intro b l
  induction l generalizing b with
  | nil => intro h; cases h
  | cons a t ih =>
    intro h
    by_cases ha : isPySpace a = true
    · rw [collapseAux, if_pos ha] at h
      cases b with
      | true =>
        simp only [if_true] at h
        rcases ih true h with h1 | h1
        · exact Or.inl h1
        · exact Or.inr (List.mem_cons_of_mem a h1)
      | false =>
        simp only [Bool.false_eq_true, if_false] at h
        rcases List.mem_cons.1 h with rfl | h1
        · exact Or.inl rfl
        · rcases ih true h1 with h2 | h2
          · exact Or.inl h2
          · exact Or.inr (List.mem_cons_of_mem a h2)
    · rw [collapseAux, if_neg ha] at h
      rcases List.mem_cons.1 h with rfl | h1
      · exact Or.inr (List.mem_cons_self _ _)
      · rcases ih false h1 with h2 | h2
        · exact Or.inl h2
        · exact Or.inr (List.mem_cons_of_mem a h2)

theorem mem_dropWhile {p : α → Bool} {c : α} :
    ∀ {l : List α}, c ∈ l.dropWhile p → c ∈ l := by
  intro l
  induction l with
  | nil => intro h; cases h
  | cons a t ih =>
    intro h
    rw [List.dropWhile_cons] at h
    split at h
    · exact List.mem_cons_of_mem a (ih h)
    · exact h

theorem mem_pyStrip {c : Char} {l : List Char} (h : c ∈ pyStrip l) : c ∈ l := by
  unfold pyStrip at h
  exact mem_dropWhile (List.mem_reverse.1 (mem_dropWhile (List.mem_reverse.1 h)))

/-- Adjacent-pair condition of `oneSpaced`: the first character and the
head of the rest are not both whitespace. -/
def sepOk (c : Char) : List Char → Bool
  | [] => true
  | d :: _ => !(isPySpace c && isPySpace d)

/-- A list is one-spaced when every whitespace character in it is a plain
space and no two adjacent characters are both whitespace. -/
def oneSpaced : List Char → Bool
  | [] => true
  | c :: cs => ((!isPySpace c || c == ' ') && sepOk c cs) && oneSpaced cs

/-- Head of the list, if any, is not whitespace. -/
def headNotSpace : List Char → Bool
  | [] => true
  | c :: _ => !isPySpace c

theorem oneSpaced_cons {c : Char} {cs : List Char} :
    oneSpaced (c :: cs) = (((!isPySpace c || c == ' ') && sepOk c cs) && oneSpaced cs) := rfl

theorem oneSpaced_tail {c : Char} {cs : List Char} (h : oneSpaced (c :: cs) = true) :
    oneSpaced cs = true := by
  rw [oneSpaced_cons, Bool.and_eq_true] at h
  exact h.2

theorem oneSpaced_cons_of_not_space {c : Char} {cs : List Char}
    (hc : isPySpace c = false) (h : oneSpaced cs = true) : oneSpaced (c :: cs) = true := by
  rw [oneSpaced_cons, hc]
  cases cs with
  | nil => simp [sepOk, h]
  | cons d ds => simp [sepOk, hc, h]

theorem oneSpaced_cons_space {cs : List Char}
    (hh : headNotSpace cs = true) (h : oneSpaced cs = true) :
    oneSpaced (' ' :: cs) = true := by
  rw [oneSpaced_cons]
  cases cs with
  | nil => simp [sepOk, oneSpaced]
  | cons d ds =>
    have hd : isPySpace d = false := by simpa [headNotSpace] using hh
    simp [sepOk, hd, h]

theorem collapseAux_good (l : List Char) :
    oneSpaced (collapseAux false l) = true ∧
    headNotSpace (collapseAux true l) = true ∧
    oneSpaced (collapseAux true l) = true := by
  induction l with
  | nil => exact ⟨rfl, rfl, rfl⟩
  | cons c cs ih =>
    obtain ⟨ihF, ihTh, ihT⟩ := ih
    by_cases hc : isPySpace c = true
    · refine ⟨?_, ?_, ?_⟩
      · rw [collapseAux, if_pos hc]
        simp only [Bool.false_eq_true, if_false]
        exact oneSpaced_cons_space ihTh ihT
      · rw [collapseAux, if_pos hc, if_pos rfl]
        exact ihTh
      · rw [collapseAux, if_pos hc, if_pos rfl]
        exact ihT
    · have hc' : isPySpace c = false := by simpa using hc
      refine ⟨?_, ?_, ?_⟩
      · rw [collapseAux, if_neg hc]
        exact oneSpaced_cons_of_not_space hc' ihF
      · rw [collapseAux, if_neg hc]
        simp [headNotSpace, hc']
      · rw [collapseAux, if_neg hc]
        exact oneSpaced_cons_of_not_space hc' ihF

theorem collapseAux_fixed : ∀ {l : List Char}, oneSpaced l = true → collapseAux false l = l := by
  intro l
  induction l with
  | nil => intro _; rfl
  | cons c cs ih =>
    intro h
    by_cases hc : isPySpace c = true
    · have hsp : c = ' ' := by
        rw [oneSpaced_cons] at h
        simp only [Bool.and_eq_true, Bool.or_eq_true, Bool.not_eq_true', beq_iff_eq] at h
        rcases h.1.1 with h1 | h1
        · rw [hc] at h1; cases h1
        · exact h1
      subst hsp
      rw [collapseAux, if_pos hc]
      simp only [Bool.false_eq_true, if_false]
      cases cs with
      | nil => rfl
      | cons d ds =>
        have hd : isPySpace d = false := by
          rw [oneSpaced_cons] at h
          simp only [Bool.and_eq_true] at h
          have := h.1.2
          simpa [sepOk, hc] using this
        have htail : oneSpaced (d :: ds) = true := oneSpaced_tail h
        have hfix := ih htail
        rw [collapseAux, if_neg (by simp [hd])] at hfix ⊢
        simpa using hfix
    · have htail : oneSpaced cs = true := oneSpaced_tail h
      rw [collapseAux, if_neg hc, ih htail]

theorem oneSpaced_append_right :
    ∀ {x y : List Char}, oneSpaced (x ++ y) = true → oneSpaced y = true := by
  intro x
  induction x with
  | nil => intro y h; exact h
  | cons a t ih => intro y h; exact ih (oneSpaced_tail h)

theorem sepOk_append {c : Char} {x y : List Char} (h : sepOk c (x ++ y) = true) :
    sepOk c x = true := by
  cases x with
  | nil => rfl
  | cons d ds => simpa [sepOk] using h

theorem oneSpaced_append_left :
    ∀ {x y : List Char}, oneSpaced (x ++ y) = true → oneSpaced x = true := by
  intro x
  induction x with
  | nil => intro y _; rfl
  | cons a t ih =>
    intro y h
    rw [List.cons_append, oneSpaced_cons, Bool.and_eq_true, Bool.and_eq_true] at h
    rw [oneSpaced_cons, Bool.and_eq_true, Bool.and_eq_true]
    exact ⟨⟨h.1.1, sepOk_append h.1.2⟩, ih h.2⟩

theorem pyStrip_split (l : List Char) :
    l.dropWhile isPySpace =
      pyStrip l ++ ((l.dropWhile isPySpace).reverse.takeWhile isPySpace).reverse := by
  conv_lhs =>
    rw [← List.reverse_reverse (l.dropWhile isPySpace),
      ← List.takeWhile_append_dropWhile (p := isPySpace)
        (l := (l.dropWhile isPySpace).reverse)]
  rw [List.reverse_append]
  rfl

theorem oneSpaced_pyStrip {l : List Char} (h : oneSpaced l = true) :
    oneSpaced (pyStrip l) = true := by
  have h1 : oneSpaced (l.dropWhile isPySpace) = true := by
    have := List.takeWhile_append_dropWhile (p := isPySpace) (l := l)
    exact oneSpaced_append_right (x := l.takeWhile isPySpace) (by rw [this]; exact h)
  rw [pyStrip_split l] at h1
  exact oneSpaced_append_left h1

theorem headNotSpace_dropWhile (l : List Char) :
    headNotSpace (l.dropWhile isPySpace) = true := by
  induction l with
  | nil => rfl
  | cons a t ih =>
    rw [List.dropWhile_cons]
    split
    · exact ih
    · next h =>
      have h' : isPySpace a = false := by simpa using h
      simp [headNotSpace, h']

theorem headNotSpace_pyStrip (l : List Char) : headNotSpace (pyStrip l) = true := by
  have hm := headNotSpace_dropWhile l
  have hsplit := pyStrip_split l
  cases hr : pyStrip l with
  | nil => rfl
  | cons c rest =>
    rw [hr] at hsplit
    rw [hsplit] at hm
    simpa [headNotSpace] using hm

theorem headNotSpace_reverse_pyStrip (l : List Char) :
    headNotSpace (pyStrip l).reverse = true := by
  unfold pyStrip
  rw [List.reverse_reverse]
  exact headNotSpace_dropWhile _

theorem dropWhile_of_headNotSpace {l : List Char} (h : headNotSpace l = true) :
    l.dropWhile isPySpace = l := by
  cases l with
  | nil => rfl
  | cons c cs =>
    have : isPySpace c = false := by simpa [headNotSpace] using h
    rw [List.dropWhile_cons_of_neg (by simp [this])]

theorem pyStrip_eq_self {l : List Char} (h1 : headNotSpace l = true)
    (h2 : headNotSpace l.reverse = true) : pyStrip l = l := by
  unfold pyStrip
  rw [dropWhile_of_headNotSpace h1, dropWhile_of_headNotSpace h2, List.reverse_reverse]

theorem pyStrip_normalizeL (l : List Char) : pyStrip (normalizeL l) = normalizeL l :=
  pyStrip_eq_self (headNotSpace_pyStrip _) (headNotSpace_reverse_pyStrip _)

theorem map_toLower_normalizeL (l : List Char) :
    (normalizeL l).map Char.toLower = normalizeL l := by
  apply map_eq_self_of_fixed
  intro c hc
  rcases mem_collapseAux false _ (mem_pyStrip hc) with rfl | hmem
  · decide
  · obtain ⟨a, _, rfl⟩ := List.mem_map.1 hmem
    exact toLower_idem a

theorem collapseWS_normalizeL (l : List Char) :
    collapseWS (normalizeL l) = normalizeL l :=
  collapseAux_fixed (oneSpaced_pyStrip (collapseAux_good (l.map Char.toLower)).1)

theorem normalizeL_idem (l : List Char) : normalizeL (normalizeL l) = normalizeL l := by
  conv_lhs => rw [normalizeL]
  rw [map_toLower_normalizeL, show collapseWS (normalizeL l) = normalizeL l from
    collapseWS_normalizeL l, pyStrip_normalizeL]

/-- C10: `normalize_text` is total (a `None` or empty input yields the
empty string), its result is lower-cased (fixed by lowering), has all
whitespace runs collapsed to single spaces (fixed by collapsing), has no
leading or trailing whitespace (fixed by stripping), and the function is
idempotent. -/
theorem c10_normalize_text_total_idem :
    normalize_text none = "" ∧
    normalize_text (some "") = "" ∧
    (∀ x : Option String,
      (normalize_text x).data.map Char.toLower = (normalize_text x).data ∧
      collapseWS (normalize_text x).data = (normalize_text x).data ∧
      pyStrip (normalize_text x).data = (normalize_text x).data ∧
      normalize_text (some (normalize_text x)) = normalize_text x) := by
  refine ⟨rfl, rfl, fun x => ⟨?_, ?_, ?_, ?_⟩⟩
  · exact map_toLower_normalizeL _
  · exact collapseWS_normalizeL _
  · exact pyStrip_normalizeL _
  · show String.mk (normalizeL (normalizeL (x.getD "").data)) =
      String.mk (normalizeL (x.getD "").data)
    rw [normalizeL_idem]

/-! Document classifier, `classify_document` from `core/classifier.py`. -/

/-- Model of the Python substring test `k in t`: some suffix of `t`
starts with `k`. -/
def strInB (k : List Char) : List Char → Bool
  | [] => k.isPrefixOf []
  | c :: cs => k.isPrefixOf (c :: cs) || strInB k cs

/-- Government-telegram keyword list of `classify_document`. -/
def gov_keywords : List String :=
  ["cộng hòa xã hội chủ nghĩa việt nam",
   "độc lập - tự do - hạnh phúc",
   "công điện",
   "kính gửi",
   "số:",
   "khẩn",
   "hỏa tốc",
   "bộ ",
   "ủy ban nhân dân",
   "thủ tướng",
   "chính phủ"]

/-- Invoice keyword list of `classify_document`. -/
def invoice_keywords : List String :=
  ["invoice", "receipt", "vat", "tax", "subtotal", "total", "amount",
   "cashier", "change", "paid", "payment",
   "hóa đơn", "hoá đơn", "mã số thuế", "tổng cộng", "thành tiền", "tiền mặt",
   "số hóa đơn", "số hoá đơn", "ngày bán", "đơn giá", "số lượng"]

/-- Count of government keywords occurring as substrings of `t`
(`sum(1 for k in gov_keywords if k in t)`). -/
def gov_hits (t : List Char) : Nat :=
  List.countP (fun k => strInB k.data t) gov_keywords

/-- Count of invoice keywords occurring as substrings of `t`. -/
def inv_hits (t : List Char) : Nat :=
  List.countP (fun k => strInB k.data t) invoice_keywords

/-- Remainders left after the regex atom `\d+` consumes one or more
digits from the front of the list. -/
def dPlusRems : List Char → List (List Char)
  | [] => []
  | c :: cs => if c.isDigit then cs :: dPlusRems cs else []

/-- Remainders left after `([.,]\d{3})+` consumes one or more
thousand-separator groups from the front of the list. -/
def groupRems : List Char → List (List Char)
  | s :: d1 :: d2 :: d3 :: rest =>
    if (s == '.' || s == ',') && d1.isDigit && d2.isDigit && d3.isDigit
    then rest :: groupRems rest else []
  | _ => []

/-- Remainders left after `\s*` consumes zero or more whitespace
characters from the front of the list. -/
def wsRems : List Char → List (List Char)
  | [] => [[]]
  | c :: cs => if isPySpace c then (c :: cs) :: wsRems cs else [c :: cs]

/-- Does the list start with one of the currency markers
`(vnd|đ|usd|\$)`? -/
def curOk (cs : List Char) : Bool :=
  "vnd".data.isPrefixOf cs || "đ".data.isPrefixOf cs ||
    "usd".data.isPrefixOf cs || "$".data.isPrefixOf cs

/-- After the numeric part, match `\s*(vnd|đ|usd|\$)`. -/
def matchTail (r : List Char) : Bool := (wsRems r).any curOk

/-- Does the regex `(\d{1,3}([.,]\d{3})+|\d+)\s*(vnd|đ|usd|\$)` match at
the start of the list?  The left alternative is 1–3 digits (the first
three entries of `dPlusRems`) followed by separator groups; the right
alternative is any non-empty digit run. -/
def matchAt (cs : List Char) : Bool :=
  ((dPlusRems cs).take 3).any (fun r => (groupRems r).any matchTail) ||
    (dPlusRems cs).any matchTail

/-- Model of `re.search(r"(\d{1,3}([.,]\d{3})+|\d+)\s*(vnd|đ|usd|\$)", t)`
being truthy: the pattern matches at some position of `t`. -/
def moneyLike (t : List Char) : Bool := t.tails.any matchAt

/-- Model of `classify_document` from `core/classifier.py`. -/
def classify_document (ocr_text : String) : String :=
  if 2 ≤ gov_hits (normalize_text (some ocr_text)).data then "Government Telegram"
  else if 2 ≤ inv_hits (normalize_text (some ocr_text)).data ∨
      (1 ≤ inv_hits (normalize_text (some ocr_text)).data ∧
        moneyLike (normalize_text (some ocr_text)).data = true) then "Invoice"
  else "Normal"

/-! Counting helpers. -/

theorem two_le_length_of_mem_ne {α} {l : List α} {a b : α}
    (ha : a ∈ l) (hb : b ∈ l) (hne : a ≠ b) : 2 ≤ l.length := by
  cases l with
  | nil => cases ha
  | cons x t =>
    cases t with
    | nil =>
      rw [List.mem_singleton] at ha hb
      exact absurd (ha.trans hb.symm) hne
    | cons y u => simp only [List.length_cons]; omega

theorem two_le_countP {α} {p : α → Bool} {l : List α} {a b : α}
    (ha : a ∈ l) (hb : b ∈ l) (hne : a ≠ b)
    (pa : p a = true) (pb : p b = true) : 2 ≤ List.countP p l := by
  rw [List.countP_eq_length_filter]
  exact two_le_length_of_mem_ne (List.mem_filter.2 ⟨ha, pa⟩)
    (List.mem_filter.2 ⟨hb, pb⟩) hne

/-- C3: any text whose normalised form contains two distinct entries of
the government keyword list as substrings classifies as
`Government Telegram`, regardless of its invoice signals (the government
test short-circuits the invoice test). -/
theorem c3_two_gov_keywords (x k1 k2 : String)
    (h1 : k1 ∈ gov_keywords) (h2 : k2 ∈ gov_keywords) (hne : k1 ≠ k2)
    (s1 : strInB k1.data (normalize_text (some x)).data = true)
    (s2 : strInB k2.data (normalize_text (some x)).data = true) :
    classify_document x = "Government Telegram" := by
  have hg : 2 ≤ gov_hits (normalize_text (some x)).data :=
    two_le_countP h1 h2 hne s1 s2
  unfold classify_document
  rw [if_pos hg]

/-- Witness for C3: the text `"công điện hỏa tốc"` contains the two
distinct government keywords `"công điện"` and `"hỏa tốc"`. -/
theorem c3_witness : classify_document "công điện hỏa tốc" = "Government Telegram" :=
  c3_two_gov_keywords "công điện hỏa tốc" "công điện" "hỏa tốc"
    (by decide) (by decide) (by decide) (by decide) (by decide)

/-- C4: a text whose normalised form contains exactly one invoice
keyword and fewer than two government keywords classifies as `Invoice`
exactly when a money-like pattern is present, and as `Normal` otherwise. -/
theorem c4_one_invoice_keyword (x : String)
    (hg : gov_hits (normalize_text (some x)).data < 2)
    (hi : inv_hits (normalize_text (some x)).data = 1) :
    classify_document x =
      (if moneyLike (normalize_text (some x)).data = true then "Invoice" else "Normal") := by
  unfold classify_document
  rw [if_neg (by omega)]
  by_cases hm : moneyLike (normalize_text (some x)).data = true
  · rw [if_pos (Or.inr ⟨by omega, hm⟩), if_pos hm]
  · have hcond : ¬(2 ≤ inv_hits (normalize_text (some x)).data ∨
        (1 ≤ inv_hits (normalize_text (some x)).data ∧
          moneyLike (normalize_text (some x)).data = true)) := by
      rintro (h | ⟨h1, h2⟩)
      · omega
      · exact hm h2
    rw [if_neg hcond, if_neg hm]

/-- Witness for C4: `"total 1.250.000 vnd"` has one invoice keyword and a
money pattern, classifying as `Invoice`; `"total"` alone is `Normal`. -/
theorem c4_witness :
    classify_document "total 1.250.000 vnd" = "Invoice" ∧
    classify_document "total" = "Normal" := by
  constructor
  · have h := c4_one_invoice_keyword "total 1.250.000 vnd" (by decide) (by decide)
    rw [h, if_pos (by decide)]
  · have h := c4_one_invoice_keyword "total" (by decide) (by decide)
    rw [h, if_neg (by decide)]

/-! OCR aggregation, `run_easyocr` from `core/ocr_engine.py`.  The
recognizer is an external collaborator; its output is a sequence of
detections `(bbox, text, confidence)` of which the aggregation uses the
text (`r[1]`) and confidence (`r[2]`).  Confidences are modelled as exact
rationals. -/

/-- One recognizer detection: the text span `r[1]` and confidence `r[2]`
(the unused bounding box `r[0]` is omitted). -/
structure Detection where
  text : String
  conf : ℚ
deriving DecidableEq

/-- Aggregation step of `run_easyocr` (identical in the enhanced and
non-enhanced branches): no detections yield `("", 0.0)`, otherwise the
text spans are joined with newlines in detection order and stripped, and
the confidence is `sum / max(len, 1)`. -/
def run_easyocr (results : List Detection) : String × ℚ :=
  if results.isEmpty then ("", 0)
  else (pyStripS (String.intercalate "\n" (results.map Detection.text)),
    (results.map Detection.conf).sum / ((max results.length 1 : Nat) : ℚ))

/-- C8: zero detections yield `("", 0.0)`; for `N ≥ 1` detections the
confidence is the unweighted arithmetic mean of the per-span confidences
and is invariant under permutations of the detection sequence, while the
text is the newline-join of the spans in the recognizer's own order. -/
theorem c8_run_easyocr_aggregation :
    run_easyocr [] = ("", 0) ∧
    (∀ l : List Detection, l ≠ [] →
      (run_easyocr l).2 = (l.map Detection.conf).sum / (l.length : ℚ) ∧
      (run_easyocr l).1 = pyStripS (String.intercalate "\n" (l.map Detection.text))) ∧
    (∀ l1 l2 : List Detection, l1.Perm l2 →
      (run_easyocr l1).2 = (run_easyocr l2).2) := by
  refine ⟨rfl, ?_, ?_⟩
  · intro l hl
    have hne : ¬(l.isEmpty = true) := by simpa [List.isEmpty_iff] using hl
    have hmax : max l.length 1 = l.length :=
      Nat.max_eq_left (Nat.one_le_iff_ne_zero.2 (by simpa using hl))
    unfold run_easyocr
    rw [if_neg hne, hmax]
    exact ⟨rfl, rfl⟩
  · intro l1 l2 hp
    by_cases h1 : l1 = []
    · subst h1
      rw [hp.nil_eq]
    · have h2 : l2 ≠ [] := fun h => h1 (List.Perm.eq_nil (h ▸ hp))
      have e1 : ¬(l1.isEmpty = true) := by simpa [List.isEmpty_iff] using h1
      have e2 : ¬(l2.isEmpty = true) := by simpa [List.isEmpty_iff] using h2
      unfold run_easyocr
      rw [if_neg e1, if_neg e2]
      simp only
      rw [(hp.map Detection.conf).sum_eq, hp.length_eq]

/-- Witness for C8: a single detection of confidence `9/10` averages to
`9/10`, and swapping two detections leaves the confidence unchanged. -/
theorem c8_witness :
    (run_easyocr [⟨"ABC", 9/10⟩]).2 = 9/10 ∧
    (run_easyocr [⟨"a", 1/4⟩, ⟨"b", 3/4⟩]).2 =
      (run_easyocr [⟨"b", 3/4⟩, ⟨"a", 1/4⟩]).2 := by
  constructor
  · have h := (c8_run_easyocr_aggregation.2.1 [⟨"ABC", 9/10⟩] (by simp)).1
    rw [h]
    norm_num
  · exact c8_run_easyocr_aggregation.2.2 _ _
      (List.Perm.swap (⟨"b", 3/4⟩ : Detection) (⟨"a", 1/4⟩ : Detection) [])

/-! Store model, `core/db.py`.  The SQLite tables are modelled as lists of
rows; nullable columns as `Option String`.  `ftsAvailable` records whether
the FTS5 virtual table exists (`sqlite3.OperationalError` is raised and
swallowed at every FTS touch-point when it does not). -/

/-- Row of the `documents` table (also the payload shape `upsert_document`
receives, since the upsert fully replaces the row). -/
structure DocRow where
  id : String
  title : Option String
  created_at : Option String
  doc_type : Option String
  ocr_text : Option String
  word_path : Option String
  excel_path : Option String
deriving DecidableEq

/-- Row of the `images` table. -/
structure ImageRow where
  id : Nat
  document_id : String
  filename : String
  stored_path : String
  ocr_text : Option String
deriving DecidableEq

/-- Row of the `documents_fts` index table. -/
structure FtsRow where
  document_id : String
  title : Option String
  doc_type : Option String
  ocr_text : Option String
deriving DecidableEq

/-- State of the store: the two tables plus the mirrored FTS index. -/
structure DBState where
  documents : List DocRow
  images : List ImageRow
  ftsAvailable : Bool
  fts : List FtsRow
deriving DecidableEq

/-- Index entry mirrored from a document payload (the FTS insert of
`upsert_document`). -/
def ftsRowOf (doc : DocRow) : FtsRow :=
  { document_id := doc.id, title := doc.title, doc_type := doc.doc_type,
    ocr_text := doc.ocr_text }

/-- Model of `upsert_document` from `core/db.py`: insert-or-fully-replace
the `documents` row keyed by `id` (`ON CONFLICT(id) DO UPDATE SET` every
column), then delete-and-reinsert the mirrored FTS row, skipping index
maintenance silently when the FTS table is unavailable. -/
def upsert_document (st : DBState) (doc : DocRow) : DBState :=
  { st with
    documents :=
      if st.documents.any (fun r => r.id == doc.id) then
        st.documents.map (fun r => if r.id = doc.id then doc else r)
      else st.documents ++ [doc],
    fts :=
      if st.ftsAvailable then
        st.fts.filter (fun e => !(e.document_id == doc.id)) ++ [ftsRowOf doc]
      else st.fts }

/-- Model of `insert_image` from `core/db.py`: append a new row with the
next auto-increment surrogate key. -/
def insert_image (st : DBState) (document_id filename stored_path : String)
    (ocr_text : Option String) : DBState :=
  { st with images := st.images ++
      [{ id := st.images.length + 1, document_id := document_id,
         filename := filename, stored_path := stored_path, ocr_text := ocr_text }] }

/-- Model of `update_image_ocr` from `core/db.py`:
`UPDATE images SET ocr_text = ? WHERE document_id = ? AND stored_path = ?`. -/
def update_image_ocr (st : DBState) (document_id stored_path ocr_text : String) : DBState :=
  { st with images := st.images.map (fun im =>
      if im.document_id = document_id ∧ im.stored_path = stored_path
      then { im with ocr_text := some ocr_text } else im) }

/-- C9: `update_image_ocr` on a key matching no image row is a no-op: the
whole store state (row count, every field of every image and document row,
and the index) is unchanged, and no error is raised (the model is a total
function). -/
theorem c9_update_image_ocr_noop (st : DBState) (document_id stored_path ocr_text : String)
    (h : ∀ im ∈ st.images,
      ¬(im.document_id = document_id ∧ im.stored_path = stored_path)) :
    update_image_ocr st document_id stored_path ocr_text = st := by
  unfold update_image_ocr
  rw [map_eq_self_of_fixed (fun im him => if_neg (h im him))]

/-- Empty store with FTS available, used by concrete witnesses. -/
def emptyDB : DBState := { documents := [], images := [], ftsAvailable := true, fts := [] }

/-- Concrete image row used by the C9 witness. -/
def imgRow1 : ImageRow :=
  { id := 1, document_id := "d1", filename := "a.png", stored_path := "p1", ocr_text := none }

/-- Witness for C9: a store with one image row keyed `("d1", "p1")` is
unchanged by an update aimed at `("d2", "p2")`. -/
theorem c9_witness :
    update_image_ocr { emptyDB with images := [imgRow1] } "d2" "p2" "x"
      = { emptyDB with images := [imgRow1] } :=
  c9_update_image_ocr_noop _ "d2" "p2" "x" (by decide)

/-- C5 (amended): `upsert_document` fully replaces the row, including
`created_at` (`created_at=excluded.created_at`): after an upsert, every
stored row carrying the payload's id has the payload's `created_at`, not
the previously stored one. -/
theorem c5_upsert_overwrites_created_at (st : DBState) (doc : DocRow) :
    ∀ r ∈ (upsert_document st doc).documents, r.id = doc.id →
      r.created_at = doc.created_at := by
  intro r hr hid
  unfold upsert_document at hr
  simp only at hr
  by_cases h : st.documents.any (fun r => r.id == doc.id) = true
  · rw [if_pos h] at hr
    obtain ⟨r0, _, him⟩ := List.mem_map.1 hr
    by_cases h0 : r0.id = doc.id
    · rw [if_pos h0] at him
      rw [← him]
    · rw [if_neg h0] at him
      rw [← him] at hid
      exact absurd hid h0
  · rw [if_neg h] at hr
    rcases List.mem_append.1 hr with hmem | hmem
    · exfalso
      apply h
      exact List.any_eq_true.2 ⟨r, hmem, by simpa using hid⟩
    · rw [List.mem_singleton.1 hmem]

/-- Concrete document payload with a 2024 `created_at`. -/
def doc2024 : DocRow :=
  { id := "d", title := some "t", created_at := some "2024-01-01T00:00:00",
    doc_type := some "Normal", ocr_text := some "", word_path := none, excel_path := none }

/-- Same id as `doc2024` but with a 2025 `created_at`. -/
def doc2025 : DocRow := { doc2024 with created_at := some "2025-06-01T12:00:00" }

/-- Witness for C5's amended theorem: instantiated at a one-row store. -/
theorem c5_witness : doc2025.created_at = doc2025.created_at :=
  c5_upsert_overwrites_created_at (upsert_document emptyDB doc2024) doc2025 doc2025
    (by decide) rfl

/-- Counterexample to C5 as stated: upserting an existing id with a
different `created_at` changes the stored `created_at` from the 2024
value to the 2025 value. -/
theorem c5_counterexample :
    ((upsert_document emptyDB doc2024).documents.map DocRow.created_at
      = [some "2024-01-01T00:00:00"]) ∧
    ((upsert_document (upsert_document emptyDB doc2024) doc2025).documents.map
        DocRow.created_at
      = [some "2025-06-01T12:00:00"]) := by
  refine ⟨by decide, by decide⟩

/-- C6: `upsert_document` is idempotent: a second upsert with the same
payload leaves the whole store state — document rows and index entry —
exactly as after the first. -/
theorem c6_upsert_document_idem (st : DBState) (doc : DocRow) :
    upsert_document (upsert_document st doc) doc = upsert_document st doc := by
  have hAny : (upsert_document st doc).documents.any (fun r => r.id == doc.id) = true := by
    unfold upsert_document
    simp only
    by_cases h : st.documents.any (fun r => r.id == doc.id) = true
    · rw [if_pos h]
      obtain ⟨r, hr, hrid⟩ := List.any_eq_true.1 h
      refine List.any_eq_true.2 ⟨doc, List.mem_map.2 ⟨r, hr, ?_⟩, by simp⟩
      rw [if_pos (by simpa using hrid)]
    · rw [if_neg h]
      exact List.any_eq_true.2 ⟨doc, List.mem_append.2 (Or.inr (List.mem_singleton.2 rfl)),
        by simp⟩
  have hFix : ∀ r ∈ (upsert_document st doc).documents,
      (if r.id = doc.id then doc else r) = r := by
    intro r hr
    unfold upsert_document at hr
    simp only at hr
    by_cases h : st.documents.any (fun r => r.id == doc.id) = true
    · rw [if_pos h] at hr
      obtain ⟨r0, _, him⟩ := List.mem_map.1 hr
      by_cases h0 : r0.id = doc.id
      · rw [if_pos h0] at him
        rw [← him, if_pos rfl]
      · rw [if_neg h0] at him
        rw [← him, if_neg h0]
    · rw [if_neg h] at hr
      rcases List.mem_append.1 hr with hmem | hmem
      · have hne : ¬(r.id = doc.id) := by
          intro he
          exact h (List.any_eq_true.2 ⟨r, hmem, by simpa using he⟩)
        rw [if_neg hne]
      · rw [List.mem_singleton.1 hmem, if_pos rfl]
  have hDocs : (upsert_document (upsert_document st doc) doc).documents
      = (upsert_document st doc).documents := by
    conv_lhs => rw [upsert_document]
    simp only
    rw [if_pos hAny, map_eq_self_of_fixed hFix]
  have hAvail : (upsert_document st doc).ftsAvailable = st.ftsAvailable := rfl
  have hFts : (upsert_document (upsert_document st doc) doc).fts
      = (upsert_document st doc).fts := by
    conv_lhs => rw [upsert_document]
    simp only
    by_cases hA : st.ftsAvailable = true
    · rw [hAvail, if_pos hA]
      have hsf : (upsert_document st doc).fts
          = st.fts.filter (fun e => !(e.document_id == doc.id)) ++ [ftsRowOf doc] := by
        unfold upsert_document
        simp only
        rw [if_pos hA]
      rw [hsf, List.filter_append, List.filter_filter]
      have h1 : (List.filter
          (fun a => (!(a.document_id == doc.id)) && !(a.document_id == doc.id)) st.fts)
          = st.fts.filter (fun e => !(e.document_id == doc.id)) := by
        apply List.filter_congr
        intro a _
        rw [Bool.and_self]
      have h2 : List.filter (fun e => !(e.document_id == doc.id)) [ftsRowOf doc] = [] := by
        simp [ftsRowOf]
      rw [h1, h2, List.append_nil]
    · have hA' : st.ftsAvailable = false := by simpa using hA
      rw [hAvail, hA']
      simp only [Bool.false_eq_true, if_false]
  calc upsert_document (upsert_document st doc) doc
      = { upsert_document st doc with
          documents := (upsert_document (upsert_document st doc) doc).documents,
          fts := (upsert_document (upsert_document st doc) doc).fts } := rfl
    _ = upsert_document st doc := by rw [hDocs, hFts]

/-! Search layer, `search_documents` from `core/db.py`.  The FTS5 `MATCH`
operator is backend-specific; it is abstracted as an arbitrary predicate
`matchFn` on index rows.  `LIKE '%' || q || '%'` is modelled as
ASCII-case-insensitive substring containment (SQLite LIKE lower-cases
ASCII only; SQL wildcards inside `q` would only make LIKE accept more,
which the containment theorem does not rely on). -/

/-- Comparison used to model `ORDER BY created_at DESC` (SQLite orders
NULL before any text, hence last in descending order). -/
def optLe (a b : Option String) : Bool :=
  match a, b with
  | none, _ => true
  | some _, none => false
  | some x, some y => decide (x ≤ y)

/-- Insert a row into a descending-by-`created_at` sorted list. -/
def insertByCreatedDesc (a : DocRow) : List DocRow → List DocRow
  | [] => [a]
  | b :: t =>
    if optLe b.created_at a.created_at then a :: b :: t
    else b :: insertByCreatedDesc a t

/-- Insertion sort modelling `ORDER BY created_at DESC`. -/
def sortByCreatedDesc (l : List DocRow) : List DocRow :=
  l.foldr insertByCreatedDesc []

/-- Effective doc-type filter: Python's `if doc_type and doc_type != "All"`
(`None`, the empty string and the `"All"` sentinel all mean no filter). -/
def typeCond (doc_type : Option String) : Option String :=
  match doc_type with
  | some s => if s ≠ "" ∧ s ≠ "All" then some s else none
  | none => none

/-- Does the row pass the doc-type filter (`d.doc_type = ?` when the
filter is effective)? -/
def dtOk (doc_type : Option String) (r : DocRow) : Bool :=
  match typeCond doc_type with
  | some s => r.doc_type == some s
  | none => true

/-- ASCII lower-casing applied by SQLite `LIKE` to both operands. -/
def sqliteLower (l : List Char) : List Char := l.map Char.toLower

/-- Model of `s LIKE '%' || pat || '%'` for non-null `s`. -/
def likeContains (pat s : List Char) : Bool :=
  strInB (sqliteLower pat) (sqliteLower s)

/-- Model of `col LIKE ?` on a nullable column: `NULL LIKE ?` is not a
match. -/
def optLike (pat : List Char) : Option String → Bool
  | none => false
  | some s => likeContains pat s.data

/-- WHERE clause of the fallback path of `search_documents`:
`id LIKE ? OR title LIKE ? OR ocr_text LIKE ?` (plus the doc-type
filter), with `q = query.strip()`. -/
def likePred (query : String) (doc_type : Option String) (d : DocRow) : Bool :=
  dtOk doc_type d &&
    (likeContains (pyStrip query.data) d.id.data ||
     optLike (pyStrip query.data) d.title ||
     optLike (pyStrip query.data) d.ocr_text)

/-- Fallback (`LIKE`) path of `search_documents`: substring scan over the
`documents` table, ordered by `created_at` descending, truncated to
`limit`. -/
def search_documents_like (st : DBState) (query : String) (doc_type : Option String)
    (limit : Nat) : List DocRow :=
  (sortByCreatedDesc (st.documents.filter (likePred query doc_type))).take limit

/-- Index path of `search_documents`: documents joined to FTS rows whose
`MATCH` predicate holds, same doc-type filter, ordering and limit as the
fallback path (the SQL join is modelled up to row multiplicity). -/
def search_documents_fts (st : DBState) (matchFn : FtsRow → Bool)
    (doc_type : Option String) (limit : Nat) : List DocRow :=
  (sortByCreatedDesc (st.documents.filter (fun d =>
    st.fts.any (fun f => f.document_id == d.id && matchFn f) && dtOk doc_type d))).take limit

/-- Model of `search_documents`: try the FTS path, fall back to the LIKE
scan when the index is unavailable.  Both paths take the same arguments
and return the same shape of result (a list of document rows). -/
def search_documents (st : DBState) (matchFn : FtsRow → Bool) (query : String)
    (doc_type : Option String) (limit : Nat) : List DocRow :=
  if st.ftsAvailable then search_documents_fts st matchFn doc_type limit
  else search_documents_like st query doc_type limit

theorem isPrefixOf_map (f : Char → Char) :
    ∀ {k s : List Char}, k.isPrefixOf s = true → (k.map f).isPrefixOf (s.map f) = true := by
  intro k
  induction k with
  | nil => intro s _; simp [List.isPrefixOf]
  | cons a as ih =>
    intro s h
    cases s with
    | nil => simp [List.isPrefixOf] at h
    | cons b bs =>
      simp only [List.isPrefixOf, Bool.and_eq_true, beq_iff_eq] at h
      simp only [List.map_cons, List.isPrefixOf, Bool.and_eq_true, beq_iff_eq]
      exact ⟨by rw [h.1], ih h.2⟩

theorem strInB_map (f : Char → Char) :
    ∀ {k t : List Char}, strInB k t = true → strInB (k.map f) (t.map f) = true := by
  intro k t
  induction t with
  | nil =>
    intro h
    unfold strInB at h ⊢
    simpa using isPrefixOf_map f h
  | cons c cs ih =>
    intro h
    unfold strInB at h ⊢
    rcases Bool.or_eq_true _ _ |>.mp h with h1 | h1
    · exact Bool.or_eq_true _ _ |>.mpr (Or.inl (isPrefixOf_map f h1))
    · exact Bool.or_eq_true _ _ |>.mpr (Or.inr (ih h1))

theorem mem_insertByCreatedDesc {x a : DocRow} :
    ∀ {l : List DocRow}, x ∈ insertByCreatedDesc a l → x = a ∨ x ∈ l := by
  intro l
  induction l with
  | nil => intro h; simpa [insertByCreatedDesc] using h
  | cons b t ih =>
    intro h
    unfold insertByCreatedDesc at h
    split at h
    · rcases List.mem_cons.1 h with rfl | h1
      · exact Or.inl rfl
      · exact Or.inr h1
    · rcases List.mem_cons.1 h with rfl | h1
      · exact Or.inr (List.mem_cons_self _ _)
      · rcases ih h1 with h2 | h2
        · exact Or.inl h2
        · exact Or.inr (List.mem_cons_of_mem _ h2)

theorem mem_sortByCreatedDesc {x : DocRow} :
    ∀ {l : List DocRow}, x ∈ sortByCreatedDesc l → x ∈ l := by
  intro l
  induction l with
  | nil => intro h; cases h
  | cons a t ih =>
    intro h
    rcases mem_insertByCreatedDesc (l := sortByCreatedDesc t) h with rfl | h1
    · exact List.mem_cons_self _ _
    · exact List.mem_cons_of_mem _ (ih h1)

/-- C7: every document returned by the index-backed path of
`search_documents` whose `ocr_text` literally contains the (stripped)
query is matched by the fallback path's WHERE clause, i.e. it appears in
the fallback scan before the result limit is applied; the two paths take
the same arguments and return the same result shape by construction. -/
theorem c7_fts_hit_found_by_fallback (st : DBState) (matchFn : FtsRow → Bool)
    (query : String) (doc_type : Option String) (limit : Nat) (d : DocRow) (txt : String)
    (hmem : d ∈ search_documents_fts st matchFn doc_type limit)
    (hocr : d.ocr_text = some txt)
    (hsub : strInB (pyStrip query.data) txt.data = true) :
    d ∈ st.documents.filter (likePred query doc_type) := by
  have hm1 : d ∈ sortByCreatedDesc (st.documents.filter (fun d =>
      st.fts.any (fun f => f.document_id == d.id && matchFn f) && dtOk doc_type d)) :=
    List.take_subset _ _ hmem
  have hm2 := mem_sortByCreatedDesc hm1
  obtain ⟨hd, hp⟩ := List.mem_filter.1 hm2
  rw [Bool.and_eq_true] at hp
  refine List.mem_filter.2 ⟨hd, ?_⟩
  unfold likePred
  rw [Bool.and_eq_true]
  refine ⟨hp.2, ?_⟩
  have hlike : optLike (pyStrip query.data) d.ocr_text = true := by
    rw [hocr]
    exact strInB_map Char.toLower hsub
  simp [hlike]

/-- Concrete document used by the C7 witness. -/
def wDoc : DocRow :=
  { id := "doc1", title := some "Bill", created_at := some "2024-01-01T00:00:00",
    doc_type := some "Invoice", ocr_text := some "hóa đơn 500000 vnd",
    word_path := none, excel_path := none }

/-- Store holding `wDoc` with its mirrored index row. -/
def wSt : DBState :=
  { documents := [wDoc], images := [], ftsAvailable := true, fts := [ftsRowOf wDoc] }

/-- Witness for C7: the document with `ocr_text = "hóa đơn 500000 vnd"`
found by the index path for the query `"hóa đơn"` is also matched by the
fallback scan. -/
theorem c7_witness : wDoc ∈ wSt.documents.filter (likePred "hóa đơn" (some "All")) :=
  c7_fts_hit_found_by_fallback wSt (fun f => f.document_id == "doc1") "hóa đơn"
    (some "All") 100 wDoc "hóa đơn 500000 vnd" (by decide) (by decide) (by decide)

/-! Ingestion pipeline, `page_upload` from `main.py` (the part after form
validation).  The side-effecting calls are modelled as a trace of events
in program order: one `insert_image` per uploaded file, one
`update_image_ocr` per file when OCR runs now, one export attempt
(`export_to_word`/`export_to_excel` inside a `try`, with `ok = false`
meaning an exception was raised and caught), and finally the single
`upsert_document` call.  Per-image OCR results are abstracted by
`ocrOf : stored_path → text` (an OCR exception is caught and yields `""`,
indistinguishable in the trace from an empty recognition). -/

/-- One observable store/export call of `page_upload`. -/
inductive Ev where
  | insertImage (document_id filename stored_path : String) (ocr_text : Option String)
  | updateImageOcr (document_id stored_path text : String)
  | exportAttempt (ok : Bool)
  | upsertDoc (doc : DocRow)
deriving DecidableEq

/-- Stored path of an uploaded file: `uploads/<doc_id>/<sanitised name>`. -/
def storedPath (doc_id fn : String) : String :=
  "data/uploads/" ++ doc_id ++ "/" ++ fn

/-- Word export destination `exports/<doc_id>/<doc_id>.docx`. -/
def wordPathOf (doc_id : String) : String :=
  "data/exports/" ++ doc_id ++ "/" ++ doc_id ++ ".docx"

/-- Excel export destination `exports/<doc_id>/<doc_id>.xlsx`. -/
def excelPathOf (doc_id : String) : String :=
  "data/exports/" ++ doc_id ++ "/" ++ doc_id ++ ".xlsx"

/-- Per-image segment appended to the combined text:
`f"\n\n--- {filename} ---\n{text}"`. -/
def sepSegment (fn text : String) : String :=
  "\n\n--- " ++ fn ++ " ---\n" ++ text

/-- Combined OCR text accumulated by the `run_now` loop of `page_upload`
(non-empty per-image texts only, in upload order). -/
def combinedText (doc_id : String) (files : List String) (run_now : Bool)
    (ocrOf : String → String) : String :=
  if run_now then
    (files.map safe_filename).foldl
      (fun acc fn =>
        if ocrOf (storedPath doc_id fn) ≠ ""
        then acc ++ sepSegment fn (ocrOf (storedPath doc_id fn)) else acc) ""
  else ""

/-- Payload of the single `upsert_document` call of `page_upload`:
title defaulted to `"Document {id}"`, classified type, combined text, and
export paths that are `None` exactly when the export attempt failed. -/
def upsertPayload (doc_id created_at title : String) (files : List String)
    (run_now : Bool) (ocrOf : String → String) (exportOk : Bool) : DocRow :=
  { id := doc_id,
    title := some (if title = "" then "Document " ++ doc_id else title),
    created_at := some created_at,
    doc_type := some (classify_document (combinedText doc_id files run_now ocrOf)),
    ocr_text := some (combinedText doc_id files run_now ocrOf),
    word_path := if exportOk then some (wordPathOf doc_id) else none,
    excel_path := if exportOk then some (excelPathOf doc_id) else none }

/-- Trace of store/export calls made by one run of `page_upload`, in
program order: save-and-register all images, then the OCR loop, then the
export attempt, then the one `upsert_document`. -/
def page_upload_trace (doc_id created_at title : String) (files : List String)
    (run_now : Bool) (ocrOf : String → String) (exportOk : Bool) : List Ev :=
  (((files.map safe_filename).map
      (fun fn => Ev.insertImage doc_id fn (storedPath doc_id fn) none) ++
    (if run_now then
      (files.map safe_filename).map
        (fun fn => Ev.updateImageOcr doc_id (storedPath doc_id fn)
          (ocrOf (storedPath doc_id fn)))
     else [])) ++
   [Ev.exportAttempt exportOk]) ++
  [Ev.upsertDoc (upsertPayload doc_id created_at title files run_now ocrOf exportOk)]

/-- Is the event an export attempt? -/
def isExportEv : Ev → Bool
  | .exportAttempt _ => true
  | _ => false

/-- Is the event a document upsert? -/
def isUpsertEv : Ev → Bool
  | .upsertDoc _ => true
  | _ => false

/-- Does some document upsert occur strictly before the first export
attempt of the trace? -/
def upsertBeforeExport (tr : List Ev) : Bool :=
  (tr.takeWhile (fun e => !isExportEv e)).any isUpsertEv

theorem takeWhile_append_of_all {p : α → Bool} {l1 l2 : List α}
    (h : ∀ x ∈ l1, p x = true) : (l1 ++ l2).takeWhile p = l1 ++ l2.takeWhile p := by
  induction l1 with
  | nil => rfl
  | cons a t ih => simp_all [List.takeWhile_cons]

theorem countP_eq_zero_of_all {p : α → Bool} {l : List α}
    (h : ∀ x ∈ l, p x = false) : List.countP p l = 0 :=
  List.countP_eq_zero.2 (fun a ha => by simp [h a ha])

/-- C2 (amended): in every run of the pipeline the export attempt
happens before the single `upsert_document` call (no upsert precedes the
export), and when the export fails the exception is caught and the
document is still upserted, with `word_path` and `excel_path` null. -/
theorem c2_export_precedes_single_upsert (doc_id created_at title : String)
    (files : List String) (run_now : Bool) (ocrOf : String → String) (exportOk : Bool) :
    (page_upload_trace doc_id created_at title files run_now ocrOf exportOk).countP
        isUpsertEv = 1 ∧
    (page_upload_trace doc_id created_at title files run_now ocrOf exportOk).countP
        isExportEv = 1 ∧
    upsertBeforeExport
        (page_upload_trace doc_id created_at title files run_now ocrOf exportOk) = false ∧
    (page_upload_trace doc_id created_at title files run_now ocrOf exportOk).getLast?
      = some (Ev.upsertDoc
          (upsertPayload doc_id created_at title files run_now ocrOf exportOk)) ∧
    (exportOk = false →
      (upsertPayload doc_id created_at title files run_now ocrOf exportOk).word_path
          = none ∧
      (upsertPayload doc_id created_at title files run_now ocrOf exportOk).excel_path
          = none) := by
  have hIns : ∀ e ∈ (files.map safe_filename).map
      (fun fn => Ev.insertImage doc_id fn (storedPath doc_id fn) none),
      isUpsertEv e = false ∧ isExportEv e = false := by
    intro e he
    obtain ⟨fn, _, rfl⟩ := List.mem_map.1 he
    exact ⟨rfl, rfl⟩
  have hOcr : ∀ e ∈ (if run_now then
      (files.map safe_filename).map
        (fun fn => Ev.updateImageOcr doc_id (storedPath doc_id fn)
          (ocrOf (storedPath doc_id fn)))
     else ([] : List Ev)),
      isUpsertEv e = false ∧ isExportEv e = false := by
    intro e he
    split at he
    · obtain ⟨fn, _, rfl⟩ := List.mem_map.1 he
      exact ⟨rfl, rfl⟩
    · cases he
  refine ⟨?_, ?_, ?_, ?_, ?_⟩
  · unfold page_upload_trace
    rw [List.countP_append, List.countP_append, List.countP_append,
      countP_eq_zero_of_all (fun x hx => (hIns x hx).1),
      countP_eq_zero_of_all (fun x hx => (hOcr x hx).1)]
    rfl
  · unfold page_upload_trace
    rw [List.countP_append, List.countP_append, List.countP_append,
      countP_eq_zero_of_all (fun x hx => (hIns x hx).2),
      countP_eq_zero_of_all (fun x hx => (hOcr x hx).2)]
    rfl
  · unfold upsertBeforeExport page_upload_trace
    rw [List.append_assoc, List.append_assoc,
      takeWhile_append_of_all (fun x hx => by simp [(hIns x hx).2]),
      takeWhile_append_of_all (fun x hx => by simp [(hOcr x hx).2])]
    rw [show ([Ev.exportAttempt exportOk] ++
        [Ev.upsertDoc (upsertPayload doc_id created_at title files run_now
          ocrOf exportOk)]).takeWhile (fun e => !isExportEv e) = [] from rfl]
    simp only [List.append_nil]
    rw [List.any_append]
    rw [List.any_eq_false.2 (fun x hx => by simp [(hIns x hx).1]),
      List.any_eq_false.2 (fun x hx => by simp [(hOcr x hx).1])]
    rfl
  · unfold page_upload_trace
    exact List.getLast?_concat _
  · intro h
    subst h
    exact ⟨rfl, rfl⟩

/-- Witness for C2's amended theorem: a concrete failed-export run still
ends in an upsert whose export paths are null. -/
theorem c2_witness :
    (page_upload_trace "d1" "2024-01-01T00:00:00" "" ["a.png"] false (fun _ => "")
        false).getLast?
      = some (Ev.upsertDoc
          (upsertPayload "d1" "2024-01-01T00:00:00" "" ["a.png"] false (fun _ => "") false)) ∧
    (upsertPayload "d1" "2024-01-01T00:00:00" "" ["a.png"] false (fun _ => "")
        false).word_path = none := by
  obtain ⟨-, -, -, h4, h5⟩ := c2_export_precedes_single_upsert "d1" "2024-01-01T00:00:00"
    "" ["a.png"] false (fun _ => "") false
  exact ⟨h4, (h5 rfl).1⟩

/-- Counterexample to C2 as stated: in a concrete run both an upsert and
an export attempt occur, but no upsert precedes the export attempt — the
code exports first and upserts once afterwards. -/
theorem c2_counterexample :
    (page_upload_trace "d1" "2024-01-01T00:00:00" "" ["a.png"] false (fun _ => "")
        false).countP isUpsertEv = 1 ∧
    (page_upload_trace "d1" "2024-01-01T00:00:00" "" ["a.png"] false (fun _ => "")
        false).countP isExportEv = 1 ∧
    upsertBeforeExport (page_upload_trace "d1" "2024-01-01T00:00:00" "" ["a.png"] false
        (fun _ => "") false) = false := by
  refine ⟨by decide, by decide, by decide⟩

end DocOcr
